import Mathlib

/-!
Shallow embedding of `src/RestreamServer/RtspMountPoints.cpp` from the
RtspRestreamServer repository: the mount-point lifecycle registry
(`make_path`, `client_closed`, `authorize_access`) together with the
bookkeeping state held in `CxxPrivate` (`pathsRefs`, `clientsToPaths`),
the `proxy` counter of `_RtspMountPoints`, the gst mount-point factory
table, and the per-client "closed" signal subscriptions.

Modelling conventions:
* `std::map` is embedded as an association list with unique keys
  (`mlookup` / `mupdate` / `merase`); `std::set<std::string>` as a
  duplicate-free `List String` (`sinsert`).  Iteration order of the
  C++ containers is irrelevant to every property proved below because
  the loop in `client_closed` touches each key at most once.
* `GstRTSPClient*` handles are opaque stable pointers: embedded as `Nat`.
* the `uint32_t` refcounts are embedded as `Nat` with explicit wrap-around
  arithmetic modulo `U32 = 2^32`: the increment stores `(n + 1) % U32`
  and the decrement stores `(n + (U32 - 1)) % U32`, exactly the
  unsigned semantics of `++x` / `--x`.  The `uint64_t` `proxy` counter
  is embedded as a plain `Nat`: wrapping it would require `2^64`
  mount-point creations, each of which allocates factory objects, so no
  process lifetime can reach it.
* `gst_rtsp_mount_points_add_factory` / `gst_rtsp_mount_points_remove_factory`
  are embedded as insertion into / removal from the set `mounted` of
  paths currently having a factory; `g_signal_connect(client, "closed", ...)`
  as insertion into the set `subscribed`; the channel ("proxy") names
  handed to the media-factory pair are logged in `channels`, ghost state
  used only to state name-uniqueness across the process lifetime.
* the configuration constants `MAX_PATHS_COUNT` and `MAX_CLIENTS_PER_PATH`
  come from `Config.h`, which only provides numeric values; they are
  taken as `Nat` parameters (`0` = unlimited, as in the checks the code
  performs on them).
* the result of `make_path` is embedded as `MakePathResult`: the C++
  function returns either a freshly allocated canonical path string or
  `nullptr`; the three `nullptr`-returning branches are tagged with the
  `RejectReason` that the corresponding log statement documents.
-/

namespace RtspMountPoints

/-- Opaque client handle (`GstRTSPClient*`). -/
abbrev Client := Nat

/-- The relevant fields of `GstRTSPUrl`: `abspath` and the (possibly
absent) `query` string. -/
structure RTSPUrl where
  abspath : String
  query : Option String
deriving DecidableEq

/-- The file-scope constant `RecordSuffix = "?record"`. -/
def RecordSuffix : String := "?record"

/-- The modulus of `uint32_t` arithmetic: `2^32`. -/
def U32 : Nat := 2 ^ 32

/-- Association-list lookup, embedding `std::map::find`. -/
def mlookup {α β : Type} [DecidableEq α] : List (α × β) → α → Option β
  | [], _ => none
  | e :: t, k => if e.1 = k then some e.2 else mlookup t k

/-- Association-list update of an existing key, embedding writing
through a `std::map` iterator.  Updating an absent key is the identity
(the code only updates keys it has just found). -/
def mupdate {α β : Type} [DecidableEq α] : List (α × β) → α → β → List (α × β)
  | [], _, _ => []
  | e :: t, k, v => if e.1 = k then (k, v) :: t else e :: mupdate t k v

/-- Association-list erasure, embedding `std::map::erase` of a found
iterator. -/
def merase {α β : Type} [DecidableEq α] : List (α × β) → α → List (α × β)
  | [], _ => []
  | e :: t, k => if e.1 = k then t else e :: merase t k

/-- Embedding of `std::set<std::string>::insert`. -/
def sinsert (l : List String) (x : String) : List String :=
  if x ∈ l then l else x :: l

/-- Embedding of `gst_rtsp_mount_points_add_factory` on the set of
mounted paths (adding a factory for an already mounted path replaces
it; the set of mounted paths gains `x`). -/
def mountAdd (l : List String) (x : String) : List String :=
  if x ∈ l then l else x :: l

/-- Embedding of `gst_rtsp_mount_points_remove_factory` on the set of
mounted paths. -/
def mountRemove (l : List String) (x : String) : List String :=
  l.filter (fun y => decide (y ≠ x))

/-- The mutable registry state: the two maps of `CxxPrivate`, the
`proxy` counter of `_RtspMountPoints`, the gst factory table, the
clients whose "closed" signal is connected, and the ghost log of
channel names created so far. -/
structure RegistryState where
  pathsRefs : List (String × Nat)
  clientsToPaths : List (Client × List String)
  proxy : Nat
  mounted : List String
  subscribed : List Client
  channels : List String
deriving DecidableEq

/-- State set up by `rtsp_mount_points_init`: empty maps, `proxy = 0`. -/
def initState : RegistryState :=
  { pathsRefs := [], clientsToPaths := [], proxy := 0,
    mounted := [], subscribed := [], channels := [] }

/-- Reason tag for the three `nullptr`-returning branches of
`make_path`, as documented by the log statement in each branch. -/
inductive RejectReason
  | authDenied
  | capacityPaths
  | capacityPerPath
deriving DecidableEq

/-- Result of `make_path`: a canonical path string, or `nullptr` with
its reason tag. -/
inductive MakePathResult
  | ok (canonical : String)
  | rejected (reason : RejectReason)
deriving DecidableEq

/-- The only callback relevant to `make_path`: the optional
`authorizeAccess` member of `MountPointsCallbacks`. -/
structure MountPointsCallbacks where
  authorizeAccess : Option (String → String → Bool)

/-- Embedding of `authorize_access`: when a callback is installed it is
consulted with the token's role (empty string when the context carries
no token) and the requested abspath; otherwise access is granted. -/
def authorize_access (cb : MountPointsCallbacks) (user : Option String)
    (abspath : String) : Bool :=
  match cb.authorizeAccess with
  | some f => f (user.getD "") abspath
  | none => true

/-- Helper for the per-path capacity condition
`pathRefsIt != p.pathsRefs.end() && pathRefsIt->second >= MAX_CLIENTS_PER_PATH`. -/
def refsAtLeast (limit : Nat) : Option Nat → Bool
  | some n => decide (limit ≤ n)
  | none => false

/-- Client tracking step of `make_path` (lines 203-218): a first-seen
client gets its "closed" signal connected and a fresh session holding
just this path; an already tracked client gets the path inserted into
its held set.  Returns the updated `clientsToPaths` map and the updated
subscription set.  The source also computes `addPathRef` here (true
exactly when the (client, path) pair is new) but only ever reads it in
an `assert` inside the path-creation branch, so the embedding drops it. -/
def trackClient (s : RegistryState) (client : Client) (path : String) :
    List (Client × List String) × List Client :=
  match mlookup s.clientsToPaths client with
  | none => ((client, [path]) :: s.clientsToPaths, client :: s.subscribed)
  | some held => (mupdate s.clientsToPaths client (sinsert held path), s.subscribed)

/-- Embedding of `make_path` (lines 156-253 of RtspMountPoints.cpp).

The client handle and the token user stand for `context->client` and
the `GST_RTSP_TOKEN_MEDIA_FACTORY_ROLE` string of `context->token`;
`maxPathsCount` / `maxClientsPerPath` are the `MAX_PATHS_COUNT` /
`MAX_CLIENTS_PER_PATH` configuration constants.

Structure, in source order: the authorization gate; the distinct-path
capacity check (only for paths not yet in the table); the per-path
capacity check on the `find` result; client tracking (`trackClient`);
finally the path-table branch on the same `find` result: absent paths
get the fresh proxy channel name `"proxy" + proxy++`, a play/record
factory pair mounted at `abspath` and `abspath + "?record"`, and a
table entry with refcount 1, while present paths get an unconditional
refcount increment.  `isRecord` is `g_strcmp0(url->query, "record") == 0`,
and the returned canonical string is `abspath + "?record"` when
`isRecord`, else `abspath`.  The source computes the `find` iterator
once; the embedding repeats `mlookup s.pathsRefs url.abspath`, on a
state those branches have not modified. -/
def make_path (cb : MountPointsCallbacks) (maxPathsCount maxClientsPerPath : Nat)
    (client : Client) (user : Option String) (url : RTSPUrl)
    (s : RegistryState) : MakePathResult × RegistryState :=
  if authorize_access cb user url.abspath = false then
    (.rejected .authDenied, s)
  else if 0 < maxPathsCount ∧ mlookup s.pathsRefs url.abspath = none ∧
          maxPathsCount ≤ s.pathsRefs.length then
    (.rejected .capacityPaths, s)
  else if 0 < maxClientsPerPath ∧
          refsAtLeast maxClientsPerPath (mlookup s.pathsRefs url.abspath) = true then
    (.rejected .capacityPerPath, s)
  else
    match mlookup s.pathsRefs url.abspath with
    | none =>
      (.ok (if url.query == some "record" then url.abspath ++ RecordSuffix
            else url.abspath),
       { pathsRefs := (url.abspath, 1) :: s.pathsRefs,
         clientsToPaths := (trackClient s client url.abspath).1,
         proxy := s.proxy + 1,
         mounted := mountAdd (mountAdd s.mounted url.abspath)
                      (url.abspath ++ RecordSuffix),
         subscribed := (trackClient s client url.abspath).2,
         channels := s.channels ++ ["proxy" ++ Nat.repr s.proxy] })
    | some n =>
      (.ok (if url.query == some "record" then url.abspath ++ RecordSuffix
            else url.abspath),
       { s with pathsRefs := mupdate s.pathsRefs url.abspath ((n + 1) % U32),
                clientsToPaths := (trackClient s client url.abspath).1,
                subscribed := (trackClient s client url.abspath).2 })

/-- One iteration of the release loop in `client_closed`
(lines 107-131): look the path up in `pathsRefs`; if it is absent the
code only logs "Inconsistent data in mount points reference counting";
otherwise the `uint32_t` refcount is decremented (wrapping modulo
`U32`, the semantics of `--` on a zero unsigned value), and on reaching
zero both factories (at the path and at the `"?record"`-suffixed path)
are removed and the table entry erased.  The accumulator carries
`(pathsRefs, mounted)`. -/
def releasePath (acc : List (String × Nat) × List String) (path : String) :
    List (String × Nat) × List String :=
  match mlookup acc.1 path with
  | none => acc
  | some n =>
    if (n + (U32 - 1)) % U32 = 0 then
      (merase acc.1 path,
       mountRemove (mountRemove acc.2 path) (path ++ RecordSuffix))
    else
      (mupdate acc.1 path ((n + (U32 - 1)) % U32), acc.2)

/-- Embedding of `client_closed` (lines 93-134): an unknown client is a
logged no-op; a tracked client releases every path of its held set and
then its session entry is erased. -/
def client_closed (client : Client) (s : RegistryState) : RegistryState :=
  match mlookup s.clientsToPaths client with
  | none => s
  | some held =>
    let acc := held.foldl releasePath (s.pathsRefs, s.mounted)
    { s with pathsRefs := acc.1,
             mounted := acc.2,
             clientsToPaths := merase s.clientsToPaths client }

/-- Refcount of a path: the stored counter, `0` when absent. -/
def refcount (s : RegistryState) (path : String) : Nat :=
  (mlookup s.pathsRefs path).getD 0

/-- Whether a path is present in the table. -/
def present (s : RegistryState) (path : String) : Bool :=
  (mlookup s.pathsRefs path).isSome

/-- Number of tracked client sessions whose held-path set contains the
given path. -/
def countHolders (clients : List (Client × List String)) (path : String) : Nat :=
  (clients.filter (fun ce => decide (path ∈ ce.2))).length

/-- An observable call into the registry: a path-resolution request
(with its configuration values, client, token user and URL) or a
disconnect notification. -/
inductive Op
  | resolve (cb : MountPointsCallbacks) (maxPathsCount maxClientsPerPath : Nat)
      (client : Client) (user : Option String) (url : RTSPUrl)
  | disconnect (client : Client)

/-- Effect of one call on the registry state. -/
def step (s : RegistryState) : Op → RegistryState
  | .resolve cb mp mcpp c u url => (make_path cb mp mcpp c u url s).2
  | .disconnect c => client_closed c s

/-- State after a sequence of calls starting from the freshly
initialised registry. -/
def run (ops : List Op) : RegistryState := ops.foldl step initState

/-- Every refcount stored in the table is positive and at most `k`; for
`k < U32` this makes every stored count a faithfully represented
(non-wrapped) `uint32_t` value. -/
def BddRefs (k : Nat) (s : RegistryState) : Prop :=
  ∀ e ∈ s.pathsRefs, 0 < e.2 ∧ e.2 ≤ k

/-- Number of path-resolution requests in a call sequence. -/
def resolveCount : List Op → Nat
  | [] => 0
  | .resolve _ _ _ _ _ _ :: t => resolveCount t + 1
  | .disconnect _ :: t => resolveCount t

/-- Representation well-formedness of a registry state: both maps have
unique keys, stored refcounts are positive and `uint32_t`-representable
(below `U32` — true of every value a `uint32_t` cell can hold),
held-path sets are duplicate-free and only reference paths present in
the table.  All reachable states satisfy this (the witnesses below are
`run` states); it is exactly what the release loop of `client_closed`
relies on. -/
def WF (s : RegistryState) : Prop :=
  (s.pathsRefs.map Prod.fst).Nodup ∧
  (s.clientsToPaths.map Prod.fst).Nodup ∧
  (∀ e ∈ s.pathsRefs, 0 < e.2 ∧ e.2 < U32) ∧
  (∀ ce ∈ s.clientsToPaths, ce.2.Nodup ∧
    ∀ p ∈ ce.2, p ∈ s.pathsRefs.map Prod.fst)

/-- Channel name created for counter value `k`:
`fmt::format("proxy{}", k)`. -/
def mkChannelName (k : Nat) : String := "proxy" ++ Nat.repr k

/-- The channel log is exactly the names of all counter values handed
out so far, in order. -/
def ChannelInv (s : RegistryState) : Prop :=
  s.channels = (List.range s.proxy).map mkChannelName

/-- The callback bundle with no authorization policy installed. -/
def noAuth : MountPointsCallbacks := ⟨none⟩

/-- A resolution request by client `1` for the path `"/a"` with no
capacity limits configured and no authorization callback. -/
def dupOp : Op := .resolve noAuth 0 0 1 none ⟨"/a", none⟩

/-- Trace in which client `1` resolves the path `"/a"` twice with no
capacity limits configured. -/
def dupTrace : List Op := [dupOp, dupOp]

/-- Closed form of the registry state after `k + 1` repetitions of
`dupOp`: the single table entry's `uint32_t` count has been bumped
`k + 1` times (insertion at 1, then `k` wrapping increments). -/
def repeatState (k : Nat) : RegistryState :=
  { pathsRefs := [("/a", (k + 1) % U32)],
    clientsToPaths := [(1, ["/a"])],
    proxy := 1,
    mounted := ["/a?record", "/a"],
    subscribed := [1],
    channels := ["proxy0"] }

/-- State after client `1` resolved `"/a"` once with
`MAX_CLIENTS_PER_PATH = 1`. -/
def onePathOneClient : RegistryState :=
  run [.resolve noAuth 0 1 1 none ⟨"/a", none⟩]

instance decidableWF (s : RegistryState) : Decidable (WF s) :=
  inferInstanceAs (Decidable (_ ∧ _ ∧ _ ∧ _))

/-! ### Association-list toolkit -/

theorem mlookup_isSome_iff {α β : Type} [DecidableEq α] (l : List (α × β)) (k : α) :
    (mlookup l k).isSome = true ↔ k ∈ l.map Prod.fst := by
  induction l with
  | nil => simp [mlookup]
  | cons e t ih =>
    simp only [mlookup, List.map_cons, List.mem_cons]
    by_cases h : e.1 = k
    · simp [h]
    · simp only [if_neg h, ih]
      constructor
      · exact Or.inr
      · rintro (rfl | hm)
        · exact absurd rfl h
        · exact hm

theorem mlookup_eq_none_iff {α β : Type} [DecidableEq α] (l : List (α × β)) (k : α) :
    mlookup l k = none ↔ k ∉ l.map Prod.fst := by
  rw [← mlookup_isSome_iff l k]
  cases mlookup l k <;> simp

theorem mlookup_mem {α β : Type} [DecidableEq α] {l : List (α × β)} {k : α} {v : β}
    (h : mlookup l k = some v) : (k, v) ∈ l := by
  induction l with
  | nil => simp [mlookup] at h
  | cons e t ih =>
    simp only [mlookup] at h
    by_cases he : e.1 = k
    · rw [if_pos he] at h
      injection h with h
      have : (k, v) = e := by
        cases e
        simp only at he h
        simp [he, h]
      rw [this]
      exact List.mem_cons_self _ _
    · rw [if_neg he] at h
      exact List.mem_cons_of_mem _ (ih h)

theorem mlookup_mupdate_ne {α β : Type} [DecidableEq α] (l : List (α × β)) {k k' : α}
    (v : β) (h : k' ≠ k) : mlookup (mupdate l k v) k' = mlookup l k' := by
  induction l with
  | nil => rfl
  | cons e t ih =>
    simp only [mupdate]
    by_cases he : e.1 = k
    · rw [if_pos he]
      simp only [mlookup]
      rw [if_neg (fun hh : k = k' => h hh.symm),
          if_neg (fun hh : e.1 = k' => h (hh ▸ he))]
    · rw [if_neg he]
      simp only [mlookup, ih]

theorem mlookup_mupdate_self {α β : Type} [DecidableEq α] (l : List (α × β)) {k : α}
    (v : β) (h : (mlookup l k).isSome = true) : mlookup (mupdate l k v) k = some v := by
  induction l with
  | nil => simp [mlookup] at h
  | cons e t ih =>
    simp only [mupdate]
    by_cases he : e.1 = k
    · rw [if_pos he]
      simp [mlookup]
    · rw [if_neg he]
      simp only [mlookup, if_neg he]
      simp only [mlookup, if_neg he] at h
      exact ih h

theorem mupdate_map_fst {α β : Type} [DecidableEq α] (l : List (α × β)) (k : α) (v : β) :
    (mupdate l k v).map Prod.fst = l.map Prod.fst := by
  induction l with
  | nil => rfl
  | cons e t ih =>
    simp only [mupdate]
    by_cases he : e.1 = k
    · rw [if_pos he]
      simp [he]
    · rw [if_neg he]
      simp [ih]

theorem mupdate_length {α β : Type} [DecidableEq α] (l : List (α × β)) (k : α) (v : β) :
    (mupdate l k v).length = l.length := by
  have := congrArg List.length (mupdate_map_fst l k v)
  simpa using this

theorem mem_mupdate {α β : Type} [DecidableEq α] {l : List (α × β)} {k : α} {v : β}
    {e : α × β} (h : e ∈ mupdate l k v) : e ∈ l ∨ e = (k, v) := by
  induction l with
  | nil => simp [mupdate] at h
  | cons f t ih =>
    simp only [mupdate] at h
    by_cases hf : f.1 = k
    · rw [if_pos hf] at h
      rcases List.mem_cons.mp h with rfl | h'
      · exact Or.inr rfl
      · exact Or.inl (List.mem_cons_of_mem _ h')
    · rw [if_neg hf] at h
      rcases List.mem_cons.mp h with rfl | h'
      · exact Or.inl (List.mem_cons_self _ _)
      · rcases ih h' with h'' | h''
        · exact Or.inl (List.mem_cons_of_mem _ h'')
        · exact Or.inr h''

theorem mlookup_merase_ne {α β : Type} [DecidableEq α] (l : List (α × β)) {k k' : α}
    (h : k' ≠ k) : mlookup (merase l k) k' = mlookup l k' := by
  induction l with
  | nil => rfl
  | cons e t ih =>
    simp only [merase]
    by_cases he : e.1 = k
    · rw [if_pos he]
      simp only [mlookup]
      rw [if_neg (fun hh : e.1 = k' => h (hh ▸ he))]
    · rw [if_neg he]
      simp only [mlookup, ih]

theorem merase_map_fst_sublist {α β : Type} [DecidableEq α] (l : List (α × β)) (k : α) :
    ((merase l k).map Prod.fst).Sublist (l.map Prod.fst) := by
  induction l with
  | nil => simp [merase]
  | cons e t ih =>
    simp only [merase]
    by_cases he : e.1 = k
    · rw [if_pos he]
      simp only [List.map_cons]
      exact (List.sublist_cons_self _ _)
    · rw [if_neg he]
      simp only [List.map_cons]
      exact ih.cons₂ _

theorem mlookup_merase_self {α β : Type} [DecidableEq α] (l : List (α × β)) (k : α)
    (h : (l.map Prod.fst).Nodup) : mlookup (merase l k) k = none := by
  induction l with
  | nil => rfl
  | cons e t ih =>
    simp only [List.map_cons, List.nodup_cons] at h
    simp only [merase]
    by_cases he : e.1 = k
    · rw [if_pos he]
      rw [mlookup_eq_none_iff]
      exact he ▸ h.1
    · rw [if_neg he]
      simp only [mlookup, if_neg he]
      exact ih h.2

theorem mem_merase {α β : Type} [DecidableEq α] {l : List (α × β)} {k : α} {e : α × β}
    (h : e ∈ merase l k) : e ∈ l := by
  induction l with
  | nil => simp [merase] at h
  | cons f t ih =>
    simp only [merase] at h
    by_cases hf : f.1 = k
    · rw [if_pos hf] at h
      exact List.mem_cons_of_mem _ h
    · rw [if_neg hf] at h
      rcases List.mem_cons.mp h with rfl | h'
      · exact List.mem_cons_self _ _
      · exact List.mem_cons_of_mem _ (ih h')

theorem mem_mountRemove {l : List String} {x y : String} :
    y ∈ mountRemove l x ↔ y ∈ l ∧ y ≠ x := by
  simp [mountRemove, List.mem_filter]

theorem mountRemove_subset {l : List String} {x y : String}
    (h : y ∈ mountRemove l x) : y ∈ l := (mem_mountRemove.mp h).1

/-! ### Branch equations for `make_path` -/

theorem refsAtLeast_some_iff (limit n : Nat) :
    refsAtLeast limit (some n) = true ↔ limit ≤ n := by
  simp [refsAtLeast]

theorem make_path_auth_eq (cb : MountPointsCallbacks) (mp mcpp : Nat) (c : Client)
    (u : Option String) (url : RTSPUrl) (s : RegistryState)
    (h1 : authorize_access cb u url.abspath = false) :
    make_path cb mp mcpp c u url s = (.rejected .authDenied, s) := by
  unfold make_path
  rw [if_pos h1]

theorem make_path_capPaths_eq (cb : MountPointsCallbacks) (mp mcpp : Nat) (c : Client)
    (u : Option String) (url : RTSPUrl) (s : RegistryState)
    (h1 : authorize_access cb u url.abspath = true)
    (h2 : 0 < mp ∧ mlookup s.pathsRefs url.abspath = none ∧ mp ≤ s.pathsRefs.length) :
    make_path cb mp mcpp c u url s = (.rejected .capacityPaths, s) := by
  unfold make_path
  rw [if_neg (by simp [h1]), if_pos h2]

theorem make_path_capPerPath_eq (cb : MountPointsCallbacks) (mp mcpp : Nat) (c : Client)
    (u : Option String) (url : RTSPUrl) (s : RegistryState)
    (h1 : authorize_access cb u url.abspath = true)
    (h2 : ¬(0 < mp ∧ mlookup s.pathsRefs url.abspath = none ∧ mp ≤ s.pathsRefs.length))
    (h3 : 0 < mcpp ∧ refsAtLeast mcpp (mlookup s.pathsRefs url.abspath) = true) :
    make_path cb mp mcpp c u url s = (.rejected .capacityPerPath, s) := by
  unfold make_path
  rw [if_neg (by simp [h1]), if_neg h2, if_pos h3]

theorem make_path_create_eq (cb : MountPointsCallbacks) (mp mcpp : Nat) (c : Client)
    (u : Option String) (url : RTSPUrl) (s : RegistryState)
    (h1 : authorize_access cb u url.abspath = true)
    (hnone : mlookup s.pathsRefs url.abspath = none)
    (h2 : ¬(0 < mp ∧ mp ≤ s.pathsRefs.length)) :
    make_path cb mp mcpp c u url s =
      (.ok (if url.query == some "record" then url.abspath ++ RecordSuffix
            else url.abspath),
       { pathsRefs := (url.abspath, 1) :: s.pathsRefs,
         clientsToPaths := (trackClient s c url.abspath).1,
         proxy := s.proxy + 1,
         mounted := mountAdd (mountAdd s.mounted url.abspath)
                      (url.abspath ++ RecordSuffix),
         subscribed := (trackClient s c url.abspath).2,
         channels := s.channels ++ ["proxy" ++ Nat.repr s.proxy] }) := by
  unfold make_path
  rw [if_neg (by simp [h1]), if_neg (fun hc => h2 ⟨hc.1, hc.2.2⟩),
      if_neg (by simp [hnone, refsAtLeast]), hnone]

theorem make_path_incr_eq (cb : MountPointsCallbacks) (mp mcpp : Nat) (c : Client)
    (u : Option String) (url : RTSPUrl) (s : RegistryState) (n : Nat)
    (h1 : authorize_access cb u url.abspath = true)
    (hsome : mlookup s.pathsRefs url.abspath = some n)
    (h3 : ¬(0 < mcpp ∧ mcpp ≤ n)) :
    make_path cb mp mcpp c u url s =
      (.ok (if url.query == some "record" then url.abspath ++ RecordSuffix
            else url.abspath),
       { s with pathsRefs := mupdate s.pathsRefs url.abspath ((n + 1) % U32),
                clientsToPaths := (trackClient s c url.abspath).1,
                subscribed := (trackClient s c url.abspath).2 }) := by
  unfold make_path
  rw [if_neg (by simp [h1]), if_neg (by simp [hsome]),
      if_neg (by simp only [hsome, refsAtLeast, decide_eq_true_eq]; exact h3), hsome]

/-- Every `nullptr`-returning branch of `make_path` returns before any
mutation: the state component of the result is the input state. -/
theorem make_path_rejected_state (cb : MountPointsCallbacks) (mp mcpp : Nat)
    (c : Client) (u : Option String) (url : RTSPUrl) (s : RegistryState)
    (r : RejectReason) (h : (make_path cb mp mcpp c u url s).1 = .rejected r) :
    (make_path cb mp mcpp c u url s).2 = s := by
  cases hauth : authorize_access cb u url.abspath with
  | false => rw [make_path_auth_eq cb mp mcpp c u url s hauth]
  | true =>
    by_cases h2 : 0 < mp ∧ mlookup s.pathsRefs url.abspath = none ∧
        mp ≤ s.pathsRefs.length
    · rw [make_path_capPaths_eq cb mp mcpp c u url s hauth h2]
    · by_cases h3 : 0 < mcpp ∧ refsAtLeast mcpp (mlookup s.pathsRefs url.abspath) = true
      · rw [make_path_capPerPath_eq cb mp mcpp c u url s hauth h2 h3]
      · exfalso
        cases hl : mlookup s.pathsRefs url.abspath with
        | none =>
          rw [make_path_create_eq cb mp mcpp c u url s hauth hl
            (fun hc => h2 ⟨hc.1, hl, hc.2⟩)] at h
          simp at h
        | some n =>
          rw [make_path_incr_eq cb mp mcpp c u url s n hauth hl
            (fun hc => h3 ⟨hc.1, by rw [hl, refsAtLeast_some_iff]; exact hc.2⟩)] at h
          simp at h

/-! ### Claims C1, C2: the duplicate-request refcount bug -/

/-- Claim C1 (code bug): a second successful `make_path` for the same
(client, path) pair is NOT idempotent.  After client 1 resolved `"/a"`
once (refcount 1), its repeat request succeeds again but increments the
refcount to 2: the increment branch of `make_path` (line 243) runs
unconditionally, ignoring the `addPathRef` flag that records whether
the pair is new. -/
theorem C1_duplicate_resolve_increments_refcount :
    (make_path noAuth 0 0 1 none ⟨"/a", none⟩ (run (List.take 1 dupTrace))).1 =
      .ok "/a" ∧
    refcount (run (List.take 1 dupTrace)) "/a" = 1 ∧
    refcount (run dupTrace) "/a" = 2 := by decide

/-- Claim C2 (code bug): after the two completed `make_path` calls of
`dupTrace` the invariant `refcount(p) = |{s : p ∈ s.heldPaths}|` is
violated: `"/a"` has refcount 2 but exactly one tracked session holds
it. -/
theorem C2_refcount_vs_holder_count :
    refcount (run dupTrace) "/a" = 2 ∧
    countHolders (run dupTrace).clientsToPaths "/a" = 1 := by decide

/-! ### Claim C3: per-path capacity check -/

/-- Claim C3 counterexample: with `MAX_CLIENTS_PER_PATH = 1`, client 1
already holds `"/a"` and `refcount("/a") = 1` equals the limit, yet the
repeat request from that same holder IS rejected by the per-path
capacity check — the check (lines 192-201) has no exemption for a
client that already holds the path, contrary to the claim. -/
theorem C3_holder_repeat_rejected :
    "/a" ∈ (mlookup onePathOneClient.clientsToPaths 1).getD [] ∧
    mlookup onePathOneClient.pathsRefs "/a" = some 1 ∧
    (make_path noAuth 0 1 1 none ⟨"/a", none⟩ onePathOneClient).1 =
      .rejected .capacityPerPath := by decide

/-- Claim C3 (amended): for an authorized request with configured limit
`mcpp`, `make_path` rejects with CapacityExceeded(per-path) iff the
limit is positive and the path is in the table with refcount already at
least the limit — with no exemption for a client that already holds the
path; and such a rejection leaves the state unchanged, so the original
holder's table state is unaffected by other clients' rejections. -/
theorem C3_perPath_capacity_iff (cb : MountPointsCallbacks) (mp mcpp : Nat)
    (c : Client) (u : Option String) (url : RTSPUrl) (s : RegistryState)
    (hauth : authorize_access cb u url.abspath = true) :
    ((make_path cb mp mcpp c u url s).1 = .rejected .capacityPerPath ↔
      0 < mcpp ∧ ∃ n, mlookup s.pathsRefs url.abspath = some n ∧ mcpp ≤ n) ∧
    ((make_path cb mp mcpp c u url s).1 = .rejected .capacityPerPath →
      (make_path cb mp mcpp c u url s).2 = s) := by
  constructor
  · constructor
    · intro h
      by_cases h2 : 0 < mp ∧ mlookup s.pathsRefs url.abspath = none ∧
          mp ≤ s.pathsRefs.length
      · rw [make_path_capPaths_eq cb mp mcpp c u url s hauth h2] at h
        simp at h
      · by_cases h3 : 0 < mcpp ∧ refsAtLeast mcpp (mlookup s.pathsRefs url.abspath) = true
        · obtain ⟨hpos, hr⟩ := h3
          cases hl : mlookup s.pathsRefs url.abspath with
          | none => rw [hl] at hr; simp [refsAtLeast] at hr
          | some n =>
            exact ⟨hpos, n, rfl, (refsAtLeast_some_iff mcpp n).mp (hl ▸ hr)⟩
        · exfalso
          cases hl : mlookup s.pathsRefs url.abspath with
          | none =>
            rw [make_path_create_eq cb mp mcpp c u url s hauth hl
              (fun hc => h2 ⟨hc.1, hl, hc.2⟩)] at h
            simp at h
          | some n =>
            rw [make_path_incr_eq cb mp mcpp c u url s n hauth hl
              (fun hc => h3 ⟨hc.1, by rw [hl, refsAtLeast_some_iff]; exact hc.2⟩)] at h
            simp at h
    · rintro ⟨hpos, n, hl, hle⟩
      have h2 : ¬(0 < mp ∧ mlookup s.pathsRefs url.abspath = none ∧
          mp ≤ s.pathsRefs.length) := by simp [hl]
      rw [make_path_capPerPath_eq cb mp mcpp c u url s hauth h2
        ⟨hpos, by rw [hl, refsAtLeast_some_iff]; exact hle⟩]
  · intro h
    exact make_path_rejected_state cb mp mcpp c u url s _ h

/-- Witness for C3's amended theorem at a concrete input: the state
where client 1 holds `"/a"` with refcount 1, limit 1. -/
theorem C3_perPath_capacity_iff_witness :
    (((make_path noAuth 0 1 2 none ⟨"/a", none⟩ onePathOneClient).1 =
        .rejected .capacityPerPath ↔
      0 < 1 ∧ ∃ n, mlookup onePathOneClient.pathsRefs "/a" = some n ∧ 1 ≤ n) ∧
    ((make_path noAuth 0 1 2 none ⟨"/a", none⟩ onePathOneClient).1 =
        .rejected .capacityPerPath →
      (make_path noAuth 0 1 2 none ⟨"/a", none⟩ onePathOneClient).2 =
        onePathOneClient)) :=
  C3_perPath_capacity_iff noAuth 0 1 2 none ⟨"/a", none⟩ onePathOneClient (by decide)

/-! ### Claim C5: canonical path form -/

/-- Claim C5: a successful `make_path` returns exactly `abspath` when
the URL's query is not the literal `"record"` (Subscribe), and exactly
`abspath ++ "?record"` when it is (Publish), case-sensitively. -/
theorem C5_canonical_path_form (cb : MountPointsCallbacks) (mp mcpp : Nat)
    (c : Client) (u : Option String) (url : RTSPUrl) (s : RegistryState)
    (r : String) (h : (make_path cb mp mcpp c u url s).1 = .ok r) :
    r = if url.query = some "record" then url.abspath ++ "?record"
        else url.abspath := by
  cases hauth : authorize_access cb u url.abspath with
  | false =>
    rw [make_path_auth_eq cb mp mcpp c u url s hauth] at h
    simp at h
  | true =>
    by_cases h2 : 0 < mp ∧ mlookup s.pathsRefs url.abspath = none ∧
        mp ≤ s.pathsRefs.length
    · rw [make_path_capPaths_eq cb mp mcpp c u url s hauth h2] at h
      simp at h
    · by_cases h3 : 0 < mcpp ∧ refsAtLeast mcpp (mlookup s.pathsRefs url.abspath) = true
      · rw [make_path_capPerPath_eq cb mp mcpp c u url s hauth h2 h3] at h
        simp at h
      · cases hl : mlookup s.pathsRefs url.abspath with
        | none =>
          rw [make_path_create_eq cb mp mcpp c u url s hauth hl
            (fun hc => h2 ⟨hc.1, hl, hc.2⟩)] at h
          simp only [MakePathResult.ok.injEq] at h
          subst h
          by_cases hq : url.query = some "record" <;>
            simp [hq, RecordSuffix, beq_iff_eq]
        | some n =>
          rw [make_path_incr_eq cb mp mcpp c u url s n hauth hl
            (fun hc => h3 ⟨hc.1, by rw [hl, refsAtLeast_some_iff]; exact hc.2⟩)] at h
          simp only [MakePathResult.ok.injEq] at h
          subst h
          by_cases hq : url.query = some "record" <;>
            simp [hq, RecordSuffix, beq_iff_eq]

/-- Witness for C5 at concrete inputs: a Publish request for `"/a"`
returns `"/a?record"`. -/
theorem C5_canonical_path_form_witness :
    (make_path noAuth 0 0 1 none ⟨"/a", some "record"⟩ initState).1 =
      .ok "/a?record" ∧
    "/a?record" = if (some "record" : Option String) = some "record"
                  then "/a" ++ "?record" else "/a" :=
  ⟨by decide,
   C5_canonical_path_form noAuth 0 0 1 none ⟨"/a", some "record"⟩ initState
     "/a?record" (by decide)⟩

/-! ### Claim C6: distinct-path capacity check -/

/-- Claim C6: for an authorized request, `make_path` rejects with
CapacityExceeded(paths) iff the limit is positive, the requested path
is not in the table, and the table already holds at least the limit
many distinct paths; a path already present bypasses this check and
(when no per-path limit is configured) resolves successfully. -/
theorem C6_paths_capacity_iff (cb : MountPointsCallbacks) (mp mcpp : Nat)
    (c : Client) (u : Option String) (url : RTSPUrl) (s : RegistryState)
    (hauth : authorize_access cb u url.abspath = true) :
    ((make_path cb mp mcpp c u url s).1 = .rejected .capacityPaths ↔
      0 < mp ∧ mlookup s.pathsRefs url.abspath = none ∧
        mp ≤ s.pathsRefs.length) ∧
    (∀ n, mlookup s.pathsRefs url.abspath = some n → mcpp = 0 →
      (make_path cb mp mcpp c u url s).1 =
        .ok (if url.query = some "record" then url.abspath ++ "?record"
             else url.abspath)) := by
  constructor
  · constructor
    · intro h
      by_cases h2 : 0 < mp ∧ mlookup s.pathsRefs url.abspath = none ∧
          mp ≤ s.pathsRefs.length
      · exact h2
      · exfalso
        by_cases h3 : 0 < mcpp ∧ refsAtLeast mcpp (mlookup s.pathsRefs url.abspath) = true
        · rw [make_path_capPerPath_eq cb mp mcpp c u url s hauth h2 h3] at h
          simp at h
        · cases hl : mlookup s.pathsRefs url.abspath with
          | none =>
            rw [make_path_create_eq cb mp mcpp c u url s hauth hl
              (fun hc => h2 ⟨hc.1, hl, hc.2⟩)] at h
            simp at h
          | some n =>
            rw [make_path_incr_eq cb mp mcpp c u url s n hauth hl
              (fun hc => h3 ⟨hc.1, by rw [hl, refsAtLeast_some_iff]; exact hc.2⟩)] at h
            simp at h
    · intro h2
      rw [make_path_capPaths_eq cb mp mcpp c u url s hauth h2]
  · intro n hl hmc
    have h3 : ¬(0 < mcpp ∧ mcpp ≤ n) := by simp [hmc]
    rw [make_path_incr_eq cb mp mcpp c u url s n hauth hl h3]
    by_cases hq : url.query = some "record" <;> simp [hq, RecordSuffix, beq_iff_eq]

/-- Witness for C6 at concrete inputs: with `MAX_PATHS_COUNT = 1` and
`"/a"` mounted, the present path `"/a"` still resolves. -/
theorem C6_paths_capacity_iff_witness :
    (((make_path noAuth 1 0 2 none ⟨"/a", none⟩ onePathOneClient).1 =
        .rejected .capacityPaths ↔
      0 < 1 ∧ mlookup onePathOneClient.pathsRefs "/a" = none ∧
        1 ≤ onePathOneClient.pathsRefs.length) ∧
    (∀ n, mlookup onePathOneClient.pathsRefs "/a" = some n → 0 = 0 →
      (make_path noAuth 1 0 2 none ⟨"/a", none⟩ onePathOneClient).1 =
        .ok (if (none : Option String) = some "record" then "/a" ++ "?record"
             else "/a"))) :=
  C6_paths_capacity_iff noAuth 1 0 2 none ⟨"/a", none⟩ onePathOneClient (by decide)

/-! ### Claim C10: rejection purity -/

/-- Claim C10: whenever `make_path` rejects a request — authorization
denial, distinct-path capacity, or per-path capacity — the state
(path table, client table, proxy counter, mounted factories,
subscriptions and channel log) is exactly as before the call. -/
theorem C10_rejection_no_state_change (cb : MountPointsCallbacks) (mp mcpp : Nat)
    (c : Client) (u : Option String) (url : RTSPUrl) (s : RegistryState)
    (r : RejectReason) (h : (make_path cb mp mcpp c u url s).1 = .rejected r) :
    (make_path cb mp mcpp c u url s).2 = s :=
  make_path_rejected_state cb mp mcpp c u url s r h

/-- Witness for C10 at a concrete input: an authorization-denied
request from the initial state. -/
theorem C10_rejection_no_state_change_witness :
    (make_path ⟨some fun _ _ => false⟩ 0 0 1 none ⟨"/a", none⟩ initState).1 =
      .rejected .authDenied ∧
    (make_path ⟨some fun _ _ => false⟩ 0 0 1 none ⟨"/a", none⟩ initState).2 =
      initState :=
  ⟨by decide,
   C10_rejection_no_state_change ⟨some fun _ _ => false⟩ 0 0 1 none ⟨"/a", none⟩
     initState .authDenied (by decide)⟩

/-! ### Branch equations for `releasePath` -/

/-- The wrapping `uint32_t` decrement agrees with truncated subtraction
by one on every representable positive value. -/
theorem dec32_eq {n : Nat} (hn : 0 < n) (hnU : n < U32) :
    (n + (U32 - 1)) % U32 = n - 1 := by
  have hU : U32 = 4294967296 := by norm_num [U32]
  rw [hU] at hnU ⊢
  omega

theorem releasePath_none {refs : List (String × Nat)} {mnt : List String} {p : String}
    (h : mlookup refs p = none) : releasePath (refs, mnt) p = (refs, mnt) := by
  unfold releasePath
  simp [h]

theorem releasePath_zero {refs : List (String × Nat)} {mnt : List String} {p : String}
    {n : Nat} (h : mlookup refs p = some n) (hz : (n + (U32 - 1)) % U32 = 0) :
    releasePath (refs, mnt) p =
      (merase refs p, mountRemove (mountRemove mnt p) (p ++ RecordSuffix)) := by
  unfold releasePath
  simp [h, hz]

theorem releasePath_decr {refs : List (String × Nat)} {mnt : List String} {p : String}
    {n : Nat} (h : mlookup refs p = some n) (hz : (n + (U32 - 1)) % U32 ≠ 0) :
    releasePath (refs, mnt) p = (mupdate refs p ((n + (U32 - 1)) % U32), mnt) := by
  unfold releasePath
  simp [h, hz]

/-! ### Claim C4: presence iff positive refcount -/

theorem releasePath_keepsBdd {k : Nat} (hk : k < U32) {refs : List (String × Nat)}
    {mnt : List String} (h : ∀ e ∈ refs, 0 < e.2 ∧ e.2 ≤ k) (p : String) :
    ∀ e ∈ (releasePath (refs, mnt) p).1, 0 < e.2 ∧ e.2 ≤ k := by
  cases hl : mlookup refs p with
  | none => rw [releasePath_none hl]; exact h
  | some n =>
    obtain ⟨hn, hnk⟩ := h (p, n) (mlookup_mem hl)
    have hdec : (n + (U32 - 1)) % U32 = n - 1 := dec32_eq hn (Nat.lt_of_le_of_lt hnk hk)
    by_cases hz : (n + (U32 - 1)) % U32 = 0
    · rw [releasePath_zero hl hz]
      intro e he
      exact h e (mem_merase he)
    · rw [releasePath_decr hl hz]
      intro e he
      rcases mem_mupdate he with he' | rfl
      · exact h e he'
      · rw [hdec] at hz
        rw [hdec]
        exact ⟨Nat.pos_of_ne_zero hz, by omega⟩

theorem foldl_releasePath_keepsBdd {k : Nat} (hk : k < U32) (held : List String) :
    ∀ acc : List (String × Nat) × List String, (∀ e ∈ acc.1, 0 < e.2 ∧ e.2 ≤ k) →
      ∀ e ∈ (held.foldl releasePath acc).1, 0 < e.2 ∧ e.2 ≤ k := by
  induction held with
  | nil => intro acc h; exact h
  | cons q t ih =>
    intro acc h
    obtain ⟨refs, mnt⟩ := acc
    exact ih _ (releasePath_keepsBdd hk h q)

theorem make_path_bddRefs (cb : MountPointsCallbacks) (mp mcpp : Nat) (c : Client)
    (u : Option String) (url : RTSPUrl) (s : RegistryState) {k : Nat}
    (h : BddRefs k s) (hk : k + 1 < U32) :
    BddRefs (k + 1) (make_path cb mp mcpp c u url s).2 := by
  have hmono : ∀ e ∈ s.pathsRefs, 0 < e.2 ∧ e.2 ≤ k + 1 :=
    fun e he => ⟨(h e he).1, Nat.le_succ_of_le (h e he).2⟩
  cases hauth : authorize_access cb u url.abspath with
  | false => rw [make_path_auth_eq cb mp mcpp c u url s hauth]; exact hmono
  | true =>
    by_cases h2 : 0 < mp ∧ mlookup s.pathsRefs url.abspath = none ∧
        mp ≤ s.pathsRefs.length
    · rw [make_path_capPaths_eq cb mp mcpp c u url s hauth h2]; exact hmono
    · by_cases h3 : 0 < mcpp ∧ refsAtLeast mcpp (mlookup s.pathsRefs url.abspath) = true
      · rw [make_path_capPerPath_eq cb mp mcpp c u url s hauth h2 h3]; exact hmono
      · cases hl : mlookup s.pathsRefs url.abspath with
        | none =>
          rw [make_path_create_eq cb mp mcpp c u url s hauth hl
            (fun hc => h2 ⟨hc.1, hl, hc.2⟩)]
          intro e he
          rcases List.mem_cons.mp he with rfl | he'
          · exact ⟨Nat.one_pos, by omega⟩
          · exact hmono e he'
        | some n =>
          rw [make_path_incr_eq cb mp mcpp c u url s n hauth hl
            (fun hc => h3 ⟨hc.1, by rw [hl, refsAtLeast_some_iff]; exact hc.2⟩)]
          intro e he
          rcases mem_mupdate he with he' | rfl
          · exact hmono e he'
          · obtain ⟨hn, hnk⟩ := h (url.abspath, n) (mlookup_mem hl)
            have hmod : (n + 1) % U32 = n + 1 := Nat.mod_eq_of_lt (by omega)
            rw [hmod]
            exact ⟨Nat.succ_pos n, by omega⟩

theorem client_closed_bddRefs (c : Client) (s : RegistryState) {k : Nat}
    (h : BddRefs k s) (hk : k < U32) : BddRefs k (client_closed c s) := by
  unfold client_closed
  cases hl : mlookup s.clientsToPaths c with
  | none => exact h
  | some held =>
    intro e he
    exact foldl_releasePath_keepsBdd hk held (s.pathsRefs, s.mounted) h e he

theorem run_bddRefs (ops : List Op) (hops : resolveCount ops < U32) :
    BddRefs (resolveCount ops) (run ops) := by
  have aux : ∀ (l : List Op) (s : RegistryState) (k : Nat), BddRefs k s →
      k + resolveCount l < U32 → BddRefs (k + resolveCount l) (l.foldl step s) := by
    intro l
    induction l with
    | nil =>
      intro s k h _
      exact h
    | cons op t ih =>
      intro s k h hlt
      cases op with
      | resolve cb mp mcpp c u url =>
        have hrc : resolveCount (Op.resolve cb mp mcpp c u url :: t) =
            resolveCount t + 1 := rfl
        rw [hrc] at hlt
        have hstep : BddRefs (k + 1) (step s (Op.resolve cb mp mcpp c u url)) :=
          make_path_bddRefs cb mp mcpp c u url s h (by omega)
        have hres := ih (step s (Op.resolve cb mp mcpp c u url)) (k + 1) hstep (by omega)
        have harith : k + 1 + resolveCount t = k + resolveCount
            (Op.resolve cb mp mcpp c u url :: t) := by
          rw [hrc]
          omega
        rw [harith] at hres
        exact hres
      | disconnect c =>
        have hrc : resolveCount (Op.disconnect c :: t) = resolveCount t := rfl
        rw [hrc] at hlt
        have hres := ih (step s (Op.disconnect c)) k
          (client_closed_bddRefs c s h (by omega)) hlt
        have harith : k + resolveCount t = k + resolveCount (Op.disconnect c :: t) := by
          rw [hrc]
        rw [harith] at hres
        exact hres
  have h0 := aux ops initState 0 (by intro e he; simp [initState] at he)
    (by rw [Nat.zero_add]; exact hops)
  rw [Nat.zero_add] at h0
  exact h0

/-- Closed form of every prefix of the repeated duplicate-resolve
trace: client 1's session holds `"/a"` once, the mount points and the
channel log are those of the single creation, and the table entry's
`uint32_t` count has been bumped `k + 1` times, wrapping modulo `U32`. -/
theorem run_replicate_dupOp (k : Nat) :
    run (List.replicate (k + 1) dupOp) = repeatState k := by
  induction k with
  | zero => decide
  | succ k ih =>
    have hsplit : List.replicate (k + 1 + 1) dupOp =
        List.replicate (k + 1) dupOp ++ [dupOp] := List.replicate_succ' _ _
    rw [hsplit]
    show List.foldl step initState (List.replicate (k + 1) dupOp ++ [dupOp]) =
      repeatState (k + 1)
    rw [List.foldl_append]
    show step (run (List.replicate (k + 1) dupOp)) dupOp = repeatState (k + 1)
    rw [ih]
    show (make_path noAuth 0 0 1 none ⟨"/a", none⟩ (repeatState k)).2 =
      repeatState (k + 1)
    have hsome : mlookup (repeatState k).pathsRefs "/a" = some ((k + 1) % U32) := by
      simp [repeatState, mlookup]
    rw [make_path_incr_eq noAuth 0 0 1 none ⟨"/a", none⟩ (repeatState k)
      ((k + 1) % U32) rfl hsome (by simp)]
    show ({ repeatState k with
        pathsRefs := mupdate (repeatState k).pathsRefs "/a" (((k + 1) % U32 + 1) % U32),
        clientsToPaths := (trackClient (repeatState k) 1 "/a").1,
        subscribed := (trackClient (repeatState k) 1 "/a").2 } : RegistryState) =
      repeatState (k + 1)
    have hval : ((k + 1) % U32 + 1) % U32 = (k + 1 + 1) % U32 := Nat.mod_add_mod _ _ _
    simp [repeatState, trackClient, mlookup, mupdate, sinsert, hval]

/-- Claim C4 counterexample: the claim as stated quantifies over every
call sequence, but after exactly `2^32` successful resolutions of
`"/a"` by client 1 (reachable through the unguarded duplicate increment
of C1) the `uint32_t` refcount has wrapped to 0 while the path is still
present in the table — so "present iff refcount > 0" fails there. -/
theorem C4_refcount_wraps_to_zero :
    present (run (List.replicate U32 dupOp)) "/a" = true ∧
    refcount (run (List.replicate U32 dupOp)) "/a" = 0 := by
  have hU : U32 = (U32 - 1) + 1 := by norm_num [U32]
  have h := run_replicate_dupOp (U32 - 1)
  rw [← hU] at h
  rw [h]
  constructor
  · show (mlookup (repeatState (U32 - 1)).pathsRefs "/a").isSome = true
    simp [repeatState, mlookup]
  · show (mlookup (repeatState (U32 - 1)).pathsRefs "/a").getD 0 = 0
    simp only [repeatState, mlookup]
    norm_num [U32]

/-- Claim C4 (amended): along every call sequence containing fewer than
`2^32` resolutions — so that no `uint32_t` refcount can be bumped often
enough to wrap — a path is present in the table iff its refcount is
strictly positive: entries are inserted with refcount 1 on first
resolution and erased exactly when a decrement reaches 0, so no entry
stores 0.  (At `2^32` resolutions the unguarded duplicate increment of
C1 wraps a present entry's count through zero: `C4_refcount_wraps_to_zero`.) -/
theorem C4_present_iff_positive_refcount (ops : List Op)
    (hops : resolveCount ops < U32) (p : String) :
    present (run ops) p = true ↔ 0 < refcount (run ops) p := by
  have h := run_bddRefs ops hops
  unfold present refcount
  cases hl : mlookup (run ops).pathsRefs p with
  | none => simp
  | some n =>
    constructor
    · intro _
      exact (h (p, n) (mlookup_mem hl)).1
    · intro _
      rfl

/-- Witness for C4's amended theorem at a concrete trace (two
resolutions). -/
theorem C4_present_iff_positive_refcount_witness :
    resolveCount dupTrace < U32 ∧
    (present (run dupTrace) "/a" = true ↔ 0 < refcount (run dupTrace) "/a") :=
  ⟨by decide, C4_present_iff_positive_refcount dupTrace (by decide) "/a"⟩

/-! ### Claim C7: effect of client_closed -/

theorem foldl_releasePath_spec (held : List String) :
    ∀ (refs : List (String × Nat)) (mnt : List String),
      held.Nodup → (refs.map Prod.fst).Nodup →
      (∀ e ∈ refs, 0 < e.2 ∧ e.2 < U32) →
      (∀ p ∈ held, (mlookup refs p).isSome = true) →
      ((∀ p ∈ held, mlookup (held.foldl releasePath (refs, mnt)).1 p =
          (if (mlookup refs p).getD 0 - 1 = 0 then none
           else some ((mlookup refs p).getD 0 - 1))) ∧
       (∀ p, p ∉ held →
          mlookup (held.foldl releasePath (refs, mnt)).1 p = mlookup refs p) ∧
       (∀ x ∈ (held.foldl releasePath (refs, mnt)).2, x ∈ mnt) ∧
       (∀ p ∈ held, (mlookup refs p).getD 0 = 1 →
          p ∉ (held.foldl releasePath (refs, mnt)).2 ∧
          (p ++ RecordSuffix) ∉ (held.foldl releasePath (refs, mnt)).2)) := by
  induction held with
  | nil =>
    intro refs mnt _ _ _ _
    exact ⟨by simp, fun p _ => rfl, fun x hx => hx, by simp⟩
  | cons q t ih =>
    intro refs mnt hnd hkeys hpos hheld
    obtain ⟨hqt, hndt⟩ := List.nodup_cons.mp hnd
    obtain ⟨n, hq⟩ := Option.isSome_iff_exists.mp (hheld q (List.mem_cons_self q t))
    have hgd : (mlookup refs q).getD 0 = n := by rw [hq]; rfl
    obtain ⟨hn, hnU⟩ := hpos (q, n) (mlookup_mem hq)
    have hdec : (n + (U32 - 1)) % U32 = n - 1 := dec32_eq hn hnU
    have hfold : (q :: t).foldl releasePath (refs, mnt) =
        t.foldl releasePath (releasePath (refs, mnt) q) := rfl
    have hne : ∀ p ∈ t, p ≠ q := fun p hp hpq => hqt (hpq ▸ hp)
    by_cases hz : n - 1 = 0
    · have hrel : releasePath (refs, mnt) q =
          (merase refs q, mountRemove (mountRemove mnt q) (q ++ RecordSuffix)) :=
        releasePath_zero hq (by rw [hdec]; exact hz)
      have hkeys1 : ((merase refs q).map Prod.fst).Nodup :=
        (merase_map_fst_sublist refs q).nodup hkeys
      have hpos1 : ∀ e ∈ merase refs q, 0 < e.2 ∧ e.2 < U32 :=
        fun e he => hpos e (mem_merase he)
      have hlook1 : ∀ p ∈ t, mlookup (merase refs q) p = mlookup refs p :=
        fun p hp => mlookup_merase_ne refs (hne p hp)
      have hheld1 : ∀ p ∈ t, (mlookup (merase refs q) p).isSome = true := by
        intro p hp
        rw [hlook1 p hp]
        exact hheld p (List.mem_cons_of_mem _ hp)
      obtain ⟨ih1, ih2, ih3, ih4⟩ :=
        ih (merase refs q) (mountRemove (mountRemove mnt q) (q ++ RecordSuffix))
          hndt hkeys1 hpos1 hheld1
      rw [hfold, hrel]
      refine ⟨?_, ?_, ?_, ?_⟩
      · intro p hp
        rcases List.mem_cons.mp hp with rfl | hp'
        · rw [ih2 p hqt, hgd, if_pos hz]
          exact mlookup_merase_self refs p hkeys
        · rw [ih1 p hp', hlook1 p hp']
      · intro p hp
        have hp1 : p ∉ t := fun hx => hp (List.mem_cons_of_mem _ hx)
        have hpq : p ≠ q := fun hx => hp (hx ▸ List.mem_cons_self q t)
        rw [ih2 p hp1]
        exact mlookup_merase_ne refs hpq
      · intro x hx
        exact mountRemove_subset (mountRemove_subset (ih3 x hx))
      · intro p hp hone
        rcases List.mem_cons.mp hp with rfl | hp'
        · constructor
          · intro hmem
            exact absurd (mem_mountRemove.mp (mountRemove_subset (ih3 p hmem))).2
              (fun hx => hx rfl)
          · intro hmem
            exact absurd (mem_mountRemove.mp (ih3 _ hmem)).2 (fun hx => hx rfl)
        · exact ih4 p hp' (by rw [hlook1 p hp']; exact hone)
    · have hrel : releasePath (refs, mnt) q = (mupdate refs q (n - 1), mnt) := by
        rw [releasePath_decr hq (by rw [hdec]; exact hz), hdec]
      have hkeys1 : ((mupdate refs q (n - 1)).map Prod.fst).Nodup := by
        rw [mupdate_map_fst]
        exact hkeys
      have hpos1 : ∀ e ∈ mupdate refs q (n - 1), 0 < e.2 ∧ e.2 < U32 := by
        intro e he
        rcases mem_mupdate he with he' | rfl
        · exact hpos e he'
        · exact ⟨Nat.pos_of_ne_zero hz, by omega⟩
      have hlook1 : ∀ p ∈ t, mlookup (mupdate refs q (n - 1)) p = mlookup refs p :=
        fun p hp => mlookup_mupdate_ne refs (n - 1) (hne p hp)
      have hheld1 : ∀ p ∈ t, (mlookup (mupdate refs q (n - 1)) p).isSome = true := by
        intro p hp
        rw [hlook1 p hp]
        exact hheld p (List.mem_cons_of_mem _ hp)
      obtain ⟨ih1, ih2, ih3, ih4⟩ := ih (mupdate refs q (n - 1)) mnt hndt hkeys1 hpos1 hheld1
      rw [hfold, hrel]
      refine ⟨?_, ?_, ?_, ?_⟩
      · intro p hp
        rcases List.mem_cons.mp hp with rfl | hp'
        · rw [ih2 p hqt, hgd, if_neg hz]
          exact mlookup_mupdate_self refs (n - 1) (by rw [hq]; rfl)
        · rw [ih1 p hp', hlook1 p hp']
      · intro p hp
        have hp1 : p ∉ t := fun hx => hp (List.mem_cons_of_mem _ hx)
        have hpq : p ≠ q := fun hx => hp (hx ▸ List.mem_cons_self q t)
        rw [ih2 p hp1]
        exact mlookup_mupdate_ne refs (n - 1) hpq
      · exact ih3
      · intro p hp hone
        rcases List.mem_cons.mp hp with rfl | hp'
        · exfalso
          rw [hgd] at hone
          exact hz (by rw [hone])
        · exact ih4 p hp' (by rw [hlook1 p hp']; exact hone)

/-- Claim C7: `client_closed` for an untracked client leaves the state
unchanged (benign no-op); for a tracked client, on a well-formed state,
it decrements by exactly one the refcount of exactly the paths in that
client's held set and of no other path, and for each held path whose
refcount was 1 (and hence reaches zero) the path leaves the table and
both factories — at the path and at the `"?record"`-suffixed path —
are unmounted; finally the client's session entry is removed while all
other sessions are untouched. -/
theorem C7_client_closed_spec (c : Client) (s : RegistryState) (hwf : WF s) :
    (mlookup s.clientsToPaths c = none → client_closed c s = s) ∧
    (∀ held, mlookup s.clientsToPaths c = some held →
      ((∀ p ∈ held, refcount (client_closed c s) p = refcount s p - 1) ∧
       (∀ p, p ∉ held → refcount (client_closed c s) p = refcount s p) ∧
       (∀ p ∈ held, refcount s p = 1 →
          present (client_closed c s) p = false ∧
          p ∉ (client_closed c s).mounted ∧
          (p ++ RecordSuffix) ∉ (client_closed c s).mounted) ∧
       mlookup (client_closed c s).clientsToPaths c = none ∧
       (∀ c', c' ≠ c → mlookup (client_closed c s).clientsToPaths c' =
          mlookup s.clientsToPaths c'))) := by
  obtain ⟨hkeys, hckeys, hpos, hsess⟩ := hwf
  constructor
  · intro h
    unfold client_closed
    rw [h]
  · intro held hheld
    have hcc : client_closed c s =
        { s with pathsRefs := (held.foldl releasePath (s.pathsRefs, s.mounted)).1,
                 mounted := (held.foldl releasePath (s.pathsRefs, s.mounted)).2,
                 clientsToPaths := merase s.clientsToPaths c } := by
      unfold client_closed
      rw [hheld]
    obtain ⟨hndheld, hsub⟩ := hsess (c, held) (mlookup_mem hheld)
    have hheldSome : ∀ p ∈ held, (mlookup s.pathsRefs p).isSome = true := by
      intro p hp
      rw [mlookup_isSome_iff]
      exact hsub p hp
    obtain ⟨sp1, sp2, sp3, sp4⟩ :=
      foldl_releasePath_spec held s.pathsRefs s.mounted hndheld hkeys hpos hheldSome
    refine ⟨?_, ?_, ?_, ?_, ?_⟩
    · intro p hp
      rw [hcc]
      show (mlookup (held.foldl releasePath (s.pathsRefs, s.mounted)).1 p).getD 0 =
        (mlookup s.pathsRefs p).getD 0 - 1
      rw [sp1 p hp]
      by_cases hzz : (mlookup s.pathsRefs p).getD 0 - 1 = 0
      · rw [if_pos hzz]
        exact hzz.symm
      · rw [if_neg hzz]
        rfl
    · intro p hp
      rw [hcc]
      show (mlookup (held.foldl releasePath (s.pathsRefs, s.mounted)).1 p).getD 0 =
        (mlookup s.pathsRefs p).getD 0
      rw [sp2 p hp]
    · intro p hp hone
      have hone' : (mlookup s.pathsRefs p).getD 0 = 1 := hone
      refine ⟨?_, ?_, ?_⟩
      · rw [hcc]
        show (mlookup (held.foldl releasePath (s.pathsRefs, s.mounted)).1 p).isSome = false
        rw [sp1 p hp, if_pos (by rw [hone'])]
        rfl
      · rw [hcc]
        show p ∉ (held.foldl releasePath (s.pathsRefs, s.mounted)).2
        exact (sp4 p hp hone').1
      · rw [hcc]
        show (p ++ RecordSuffix) ∉ (held.foldl releasePath (s.pathsRefs, s.mounted)).2
        exact (sp4 p hp hone').2
    · rw [hcc]
      show mlookup (merase s.clientsToPaths c) c = none
      exact mlookup_merase_self s.clientsToPaths c hckeys
    · intro c' hc'
      rw [hcc]
      show mlookup (merase s.clientsToPaths c) c' = mlookup s.clientsToPaths c'
      exact mlookup_merase_ne s.clientsToPaths hc'

/-- Witness for C7 at a concrete input: the well-formed state where
client 1 holds `"/a"` with refcount 1. -/
theorem C7_client_closed_spec_witness :
    (mlookup onePathOneClient.clientsToPaths 1 = none →
       client_closed 1 onePathOneClient = onePathOneClient) ∧
    (∀ held, mlookup onePathOneClient.clientsToPaths 1 = some held →
      ((∀ p ∈ held, refcount (client_closed 1 onePathOneClient) p =
          refcount onePathOneClient p - 1) ∧
       (∀ p, p ∉ held → refcount (client_closed 1 onePathOneClient) p =
          refcount onePathOneClient p) ∧
       (∀ p ∈ held, refcount onePathOneClient p = 1 →
          present (client_closed 1 onePathOneClient) p = false ∧
          p ∉ (client_closed 1 onePathOneClient).mounted ∧
          (p ++ RecordSuffix) ∉ (client_closed 1 onePathOneClient).mounted) ∧
       mlookup (client_closed 1 onePathOneClient).clientsToPaths 1 = none ∧
       (∀ c', c' ≠ 1 → mlookup (client_closed 1 onePathOneClient).clientsToPaths c' =
          mlookup onePathOneClient.clientsToPaths c'))) :=
  C7_client_closed_spec 1 onePathOneClient (by decide)

/-! ### Claim C8: channel-name freshness

`make_path` formats each channel name as `fmt::format("proxy{}", proxy++)`;
to show two creations never share a name we need decimal formatting
(`Nat.repr`, the embedding of the format call) to be injective, proved
here by relating core's fuel-based `Nat.toDigitsCore` to Mathlib's
`Nat.digits`. -/

theorem toDigitsCore_eq_digits (b : Nat) (hb : 1 < b) :
    ∀ (f n : Nat) (ds : List Char), n ≠ 0 → n < b ^ f →
      Nat.toDigitsCore b f n ds = ((Nat.digits b n).map Nat.digitChar).reverse ++ ds := by
  intro f
  induction f with
  | zero =>
    intro n ds hn hlt
    simp at hlt
    exact absurd hlt hn
  | succ f ih =>
    intro n ds hn hlt
    have hn0 : 0 < n := Nat.pos_of_ne_zero hn
    have hdig : Nat.digits b n = (n % b) :: Nat.digits b (n / b) := Nat.digits_def' hb hn0
    have hstep : Nat.toDigitsCore b (f + 1) n ds =
        if n / b = 0 then Nat.digitChar (n % b) :: ds
        else Nat.toDigitsCore b f (n / b) (Nat.digitChar (n % b) :: ds) := rfl
    by_cases hdiv : n / b = 0
    · rw [hstep, if_pos hdiv, hdig, hdiv, Nat.digits_zero]
      simp
    · rw [hstep, if_neg hdiv]
      have hltdiv : n / b < b ^ f := by
        rw [Nat.div_lt_iff_lt_mul (Nat.lt_of_lt_of_le Nat.zero_lt_one (Nat.le_of_lt hb))]
        rw [← pow_succ]
        exact hlt
      rw [ih (n / b) (Nat.digitChar (n % b) :: ds) hdiv hltdiv, hdig]
      simp

theorem repr_eq_digits (n : Nat) (hn : n ≠ 0) :
    Nat.repr n = (((Nat.digits 10 n).map Nat.digitChar).reverse).asString := by
  unfold Nat.repr Nat.toDigits
  rw [toDigitsCore_eq_digits 10 (by norm_num) (n + 1) n [] hn
    (Nat.lt_of_lt_of_le (Nat.lt_pow_self (by norm_num) n)
      (Nat.pow_le_pow_right (by norm_num) (Nat.le_succ n)))]
  simp

theorem digitChar_inj_lt10 :
    ∀ a, a < 10 → ∀ c, c < 10 → Nat.digitChar a = Nat.digitChar c → a = c := by decide

theorem map_digitChar_inj (l1 : List Nat) :
    ∀ (l2 : List Nat), (∀ x ∈ l1, x < 10) → (∀ x ∈ l2, x < 10) →
      l1.map Nat.digitChar = l2.map Nat.digitChar → l1 = l2 := by
  induction l1 with
  | nil =>
    intro l2 _ _ h
    cases l2 with
    | nil => rfl
    | cons c t => simp at h
  | cons a t1 ih =>
    intro l2 h1 h2 h
    cases l2 with
    | nil => simp at h
    | cons c t2 =>
      simp only [List.map_cons, List.cons.injEq] at h
      have ha := h1 a (List.mem_cons_self _ _)
      have hc := h2 c (List.mem_cons_self _ _)
      rw [digitChar_inj_lt10 a ha c hc h.1,
        ih t2 (fun x hx => h1 x (List.mem_cons_of_mem _ hx))
          (fun x hx => h2 x (List.mem_cons_of_mem _ hx)) h.2]

theorem nat_repr_injective : Function.Injective Nat.repr := by
  have hzero : ∀ m, m ≠ 0 → Nat.repr m ≠ Nat.repr 0 := by
    intro m hm h
    rw [repr_eq_digits m hm] at h
    have hdata := congrArg String.data h
    simp only [List.asString] at hdata
    have hdata' : ((Nat.digits 10 m).map Nat.digitChar).reverse = ['0'] := hdata
    have hmap : (Nat.digits 10 m).map Nat.digitChar = ['0'] := by
      have := congrArg List.reverse hdata'
      simpa using this
    cases hd : Nat.digits 10 m with
    | nil => rw [hd] at hmap; simp at hmap
    | cons a l =>
      rw [hd] at hmap
      simp only [List.map_cons, List.cons.injEq] at hmap
      have hl : l = [] := List.map_eq_nil_iff.mp hmap.2
      have ha : a < 10 :=
        Nat.digits_lt_base (by norm_num) (hd ▸ List.mem_cons_self a l)
      have ha0 : a = 0 := digitChar_inj_lt10 a ha 0 (by norm_num) hmap.1
      have : m = 0 := by
        have hof := Nat.ofDigits_digits 10 m
        rw [hd, hl, ha0] at hof
        simpa [Nat.ofDigits] using hof.symm
      exact hm this
  intro n m h
  rcases Nat.eq_zero_or_pos n with rfl | hn
  · rcases Nat.eq_zero_or_pos m with rfl | hm
    · rfl
    · exact absurd h.symm (hzero m (Nat.pos_iff_ne_zero.mp hm))
  · rcases Nat.eq_zero_or_pos m with rfl | hm
    · exact absurd h (hzero n (Nat.pos_iff_ne_zero.mp hn))
    · rw [repr_eq_digits n (Nat.pos_iff_ne_zero.mp hn),
        repr_eq_digits m (Nat.pos_iff_ne_zero.mp hm)] at h
      have hdata := congrArg String.data h
      simp only [List.asString] at hdata
      have hrev : ((Nat.digits 10 n).map Nat.digitChar).reverse =
          ((Nat.digits 10 m).map Nat.digitChar).reverse := hdata
      have hmap : (Nat.digits 10 n).map Nat.digitChar =
          (Nat.digits 10 m).map Nat.digitChar := by
        have := congrArg List.reverse hrev
        simpa using this
      have hdigs : Nat.digits 10 n = Nat.digits 10 m :=
        map_digitChar_inj (Nat.digits 10 n) (Nat.digits 10 m)
          (fun x hx => Nat.digits_lt_base (by norm_num) hx)
          (fun x hx => Nat.digits_lt_base (by norm_num) hx) hmap
      exact Nat.digits_inj_iff.mp hdigs

theorem mkChannelName_injective : Function.Injective mkChannelName := by
  intro a c h
  unfold mkChannelName at h
  have hdata := congrArg String.data h
  rw [String.data_append, String.data_append] at hdata
  have : (Nat.repr a).data = (Nat.repr c).data := List.append_cancel_left hdata
  exact nat_repr_injective (String.ext this)

theorem make_path_channelInv (cb : MountPointsCallbacks) (mp mcpp : Nat) (c : Client)
    (u : Option String) (url : RTSPUrl) (s : RegistryState) (h : ChannelInv s) :
    ChannelInv (make_path cb mp mcpp c u url s).2 := by
  cases hauth : authorize_access cb u url.abspath with
  | false => rw [make_path_auth_eq cb mp mcpp c u url s hauth]; exact h
  | true =>
    by_cases h2 : 0 < mp ∧ mlookup s.pathsRefs url.abspath = none ∧
        mp ≤ s.pathsRefs.length
    · rw [make_path_capPaths_eq cb mp mcpp c u url s hauth h2]; exact h
    · by_cases h3 : 0 < mcpp ∧ refsAtLeast mcpp (mlookup s.pathsRefs url.abspath) = true
      · rw [make_path_capPerPath_eq cb mp mcpp c u url s hauth h2 h3]; exact h
      · cases hl : mlookup s.pathsRefs url.abspath with
        | none =>
          rw [make_path_create_eq cb mp mcpp c u url s hauth hl
            (fun hc => h2 ⟨hc.1, hl, hc.2⟩)]
          show s.channels ++ ["proxy" ++ Nat.repr s.proxy] =
            (List.range (s.proxy + 1)).map mkChannelName
          have h' : s.channels = (List.range s.proxy).map mkChannelName := h
          rw [List.range_succ, List.map_append, ← h']
          rfl
        | some n =>
          rw [make_path_incr_eq cb mp mcpp c u url s n hauth hl
            (fun hc => h3 ⟨hc.1, by rw [hl, refsAtLeast_some_iff]; exact hc.2⟩)]
          exact h

theorem client_closed_channelInv (c : Client) (s : RegistryState) (h : ChannelInv s) :
    ChannelInv (client_closed c s) := by
  unfold client_closed
  cases hl : mlookup s.clientsToPaths c with
  | none => exact h
  | some held => exact h

theorem run_channelInv (ops : List Op) : ChannelInv (run ops) := by
  have aux : ∀ (l : List Op) (s : RegistryState), ChannelInv s →
      ChannelInv (l.foldl step s) := by
    intro l
    induction l with
    | nil => intro s h; exact h
    | cons op t ih =>
      intro s h
      cases op with
      | resolve cb mp mcpp c u url =>
        exact ih _ (make_path_channelInv cb mp mcpp c u url s h)
      | disconnect c => exact ih _ (client_closed_channelInv c s h)
  exact aux ops initState rfl

/-- Claim C8: along every call sequence from the initialised registry,
the channel names handed out at PathEntry creation are exactly the
decimal names of the counter values `0, 1, ...` below the current
`proxy` counter — the counter increases monotonically and is never
reset, including across teardown and recreation of the same path — and
hence no two creations during the process lifetime ever receive the
same channel name. -/
theorem C8_channel_names_unique (ops : List Op) :
    (run ops).channels = (List.range (run ops).proxy).map mkChannelName ∧
    ((run ops).channels).Nodup := by
  have h : (run ops).channels = (List.range (run ops).proxy).map mkChannelName :=
    run_channelInv ops
  refine ⟨h, ?_⟩
  rw [h]
  exact (List.nodup_range _).map mkChannelName_injective

end RtspMountPoints
